import Mathlib

/-!
Verification of the GLIMPSE concordance submodule of MultiQC
(`multiqc/modules/glimpse/err_spl.py` and `multiqc/modules/glimpse/glimpse.py`).

The development shallowly embeds the line-format parser
`parse_err_spl_report` and the report-counting logic of
`MultiqcModule.__init__`.  Python strings are modelled as `List Char`
(wrapped in `String` at the boundaries), Python `int` as `ℤ`, Python
`float` as `ℚ` (exact decimal semantics of the parsed literals), Python
dictionaries as insertion-ordered association lists, and Python
exceptions as an explicit error result.
-/

/-- The Python exceptions that `parse_err_spl_report` can actually raise:
`IndexError` (from `lines[0]` on an empty list and `fields[0][0]` on an
empty token) and `ValueError` (from the 19-name unpacking of `fields` and
from failing `int(...)` / `float(...)` coercions). -/
inductive PyErr where
  | indexError : PyErr
  | valueError : PyErr
deriving DecidableEq, Repr

/-- Result of running a piece of Python code: either a value or an
uncaught exception. -/
inductive PyResult (α : Type) where
  | ok : α → PyResult α
  | exn : PyErr → PyResult α
deriving DecidableEq, Repr

/-- A value stored in the per-sample record dictionary: the source stores
`str`, `int` and `float` values (err_spl.py lines 240-259). -/
inductive PyValue where
  | str : String → PyValue
  | int : ℤ → PyValue
  | float : ℚ → PyValue
deriving DecidableEq, Repr

/-- One per-sample record: the Python `dict` built at err_spl.py line 240,
modelled as an insertion-ordered association list from field name to
value. -/
abbrev Record := List (String × PyValue)

/-- Characters removed by Python `str.strip()` (ASCII whitespace; the
format at hand contains no further Unicode whitespace). -/
def isPySpace (c : Char) : Bool :=
  c = ' ' || c = '\t' || c = '\n' || c = '\x0b' || c = '\x0c' || c = '\r'

/-- Model of Python `str.strip()`: drop leading and trailing whitespace. -/
def stripCh (cs : List Char) : List Char :=
  ((cs.dropWhile isPySpace).reverse.dropWhile isPySpace).reverse

/-- Model of Python `str.split(" ")`: split on every single space
character; adjacent separators produce empty tokens, and the result is
never the empty list (`"".split(" ") == [""]`). -/
def splitSp : List Char → List (List Char)
  | [] => [[]]
  | c :: rest =>
    if c = ' ' then [] :: splitSp rest
    else
      match splitSp rest with
      | [] => [[c]]
      | t :: ts => (c :: t) :: ts

/-- Model of Python `str.splitlines()` for the line separators `\n`,
`\r\n` and `\r` (the ones this plain-ASCII log format can contain): no
trailing empty line for a terminal separator, and `"".splitlines() == []`. -/
def splitLinesCh : List Char → List (List Char)
  | [] => []
  | '\n' :: rest => [] :: splitLinesCh rest
  | '\r' :: '\n' :: rest => [] :: splitLinesCh rest
  | '\r' :: rest => [] :: splitLinesCh rest
  | c :: rest =>
    match splitLinesCh rest with
    | [] => [[c]]
    | t :: ts => (c :: t) :: ts

/-- Numeric value of a decimal digit character. -/
def digVal (c : Char) : ℕ := c.toNat - 48

/-- Value of a most-significant-first list of decimal digit characters. -/
def natOfDigits (ds : List Char) : ℕ :=
  ds.foldl (fun a c => 10 * a + digVal c) 0

/-- Parse a nonempty all-digit token as a natural number. -/
def parseNatCh (cs : List Char) : Option ℕ :=
  if cs = [] then none
  else if cs.all Char.isDigit then some (natOfDigits cs) else none

/-- Model of Python `int(token)` on a plain token: an optional sign
followed by decimal digits.  (Python `int` additionally accepts
surrounding whitespace and digit-group underscores; the tokens of this
format, produced by splitting on spaces, contain neither.) -/
def parseIntCh (cs : List Char) : Option ℤ :=
  match cs with
  | '-' :: rest => (parseNatCh rest).map (fun n => -(n : ℤ))
  | '+' :: rest => (parseNatCh rest).map (fun n => (n : ℤ))
  | _ => (parseNatCh cs).map (fun n => (n : ℤ))

/-- Apply a decimal exponent suffix (the part after `e`/`E`) to an
already-parsed mantissa/denominator pair. -/
def applyExp (m : ℤ) (d : ℕ) (cs : List Char) : Option (ℤ × ℕ) :=
  match parseIntCh cs with
  | some e => some (if 0 ≤ e then (m * 10 ^ e.toNat, d) else (m, d * 10 ^ (-e).toNat))
  | none => none

/-- Unsigned part of Python `float(token)`: decimal digits with an
optional fractional part and optional exponent, valued exactly as the
pair (mantissa, denominator) with value mantissa / denominator.
(Python `float` additionally accepts `inf`/`nan` spellings and
underscores, which this log format never produces, and rounds the exact
decimal value to binary; the development works with the exact value.) -/
def parseFracCh (cs : List Char) : Option (ℤ × ℕ) :=
  let ip := cs.takeWhile Char.isDigit
  let rest := cs.dropWhile Char.isDigit
  match rest with
  | [] => if ip = [] then none else some ((natOfDigits ip : ℤ), 1)
  | '.' :: rest2 =>
    let fp := rest2.takeWhile Char.isDigit
    let rest3 := rest2.dropWhile Char.isDigit
    if ip = [] && fp = [] then none
    else
      let m : ℤ := (natOfDigits ip : ℤ) * 10 ^ fp.length + (natOfDigits fp : ℤ)
      let d : ℕ := 10 ^ fp.length
      match rest3 with
      | [] => some (m, d)
      | 'e' :: rest4 => applyExp m d rest4
      | 'E' :: rest4 => applyExp m d rest4
      | _ => none
  | 'e' :: rest4 => if ip = [] then none else applyExp (natOfDigits ip : ℤ) 1 rest4
  | 'E' :: rest4 => if ip = [] then none else applyExp (natOfDigits ip : ℤ) 1 rest4
  | _ => none

/-- Model of Python `float(token)` on a plain decimal token: optional
sign, then an unsigned decimal with optional fraction and exponent; the
exact rational value is formed with `mkRat`. -/
def parseFloatCh (cs : List Char) : Option ℚ :=
  match cs with
  | '-' :: rest => (parseFracCh rest).map (fun md => mkRat (-md.1) md.2)
  | '+' :: rest => (parseFracCh rest).map (fun md => mkRat md.1 md.2)
  | _ => (parseFracCh cs).map (fun md => mkRat md.1 md.2)

/-- The 19 expected column names (err_spl.py `EXPECTED_COLUMNS`); only its
length is consulted by the parser, and only inside a log message. -/
def EXPECTED_COLUMNS : List String :=
  ["#GCsS", "id", "sample_name", "#val_gt_RR", "#val_gt_RA", "#val_gt_AA",
   "#filtered_gp", "RR_hom_matches", "RA_het_matches", "AA_hom_matches",
   "RR_hom_mismatches", "RA_het_mismatches", "AA_hom_mismatches",
   "RR_hom_mismatches_rate_percent", "RA_het_mismatches_rate_percent",
   "AA_hom_mimatches", "non_reference_discordanc_rate_percent",
   "best_gt_rsquared", "imputed_ds_rsquared"]

/-- The positional unpacking and coercion of one data line
(err_spl.py lines 239-259): exactly 19 tokens are unpacked into named
variables, then coerced with `str`/`int`/`float` into the record
dictionary keyed by `sample_name`.  `none` stands for the `ValueError`
raised by an arity mismatch of the unpacking or by a failing numeric
coercion. -/
def recordOfTokens (fs : List (List Char)) : Option (String × Record) :=
  match fs with
  | [variants, bins, sample_name, val_gt_RR, val_gt_RA, val_gt_AA,
     filtered_gp, RR_hom_matches, RA_het_matches, AA_hom_matches,
     RR_hom_mismatches, RA_het_mismatches, AA_hom_mismatches,
     RR_hom_mismatches_rate_percent, RA_het_mismatches_rate_percent,
     AA_hom_mismatches_rate_percent, non_reference_discordanc_rate_percent,
     best_gt_rsquared, imputed_ds_rsquared] =>
    match parseIntCh bins, parseIntCh val_gt_RR, parseIntCh val_gt_RA,
          parseIntCh val_gt_AA, parseIntCh filtered_gp,
          parseIntCh RR_hom_matches, parseIntCh RA_het_matches,
          parseIntCh AA_hom_matches, parseIntCh RR_hom_mismatches,
          parseIntCh RA_het_mismatches, parseIntCh AA_hom_mismatches,
          parseFloatCh RR_hom_mismatches_rate_percent,
          parseFloatCh RA_het_mismatches_rate_percent,
          parseFloatCh AA_hom_mismatches_rate_percent,
          parseFloatCh non_reference_discordanc_rate_percent,
          parseFloatCh best_gt_rsquared, parseFloatCh imputed_ds_rsquared with
    | some b, some v1, some v2, some v3, some v4, some m1, some m2, some m3,
      some w1, some w2, some w3, some q1, some q2, some q3, some q4,
      some q5, some q6 =>
      some (String.mk sample_name,
        [("variants", PyValue.str (String.mk variants)),
         ("bins", PyValue.int b),
         ("val_gt_RR", PyValue.int v1),
         ("val_gt_RA", PyValue.int v2),
         ("val_gt_AA", PyValue.int v3),
         ("filtered_gp", PyValue.int v4),
         ("RR_hom_matches", PyValue.int m1),
         ("RA_het_matches", PyValue.int m2),
         ("AA_hom_matches", PyValue.int m3),
         ("RR_hom_mismatches", PyValue.int w1),
         ("RA_het_mismatches", PyValue.int w2),
         ("AA_hom_mismatches", PyValue.int w3),
         ("RR_hom_mismatches_rate_percent", PyValue.float q1),
         ("RA_het_mismatches_rate_percent", PyValue.float q2),
         ("AA_hom_mismatches_rate_percent", PyValue.float q3),
         ("non_reference_discordanc_rate_percent", PyValue.float q4),
         ("best_gt_rsquared", PyValue.float q5),
         ("imputed_ds_rsquared", PyValue.float q6)])
    | _, _, _, _, _, _, _, _, _, _, _, _, _, _, _, _, _ => none
  | _ => none

/-- Processing of one line of the loop body (err_spl.py lines 233-259):
strip and split on spaces, test the first character of the first token
for the comment marker (raising `IndexError` on an empty token, i.e. on a
blank or whitespace-only line), and otherwise unpack and coerce.  The
token-count comparison against `len(EXPECTED_COLUMNS)` at line 237 only
emits a log message and does not skip the line, so it has no semantic
effect here; a wrong count surfaces as the `ValueError` of the unpacking.
`ok none` is a comment line contributing nothing. -/
def processLine (l : List Char) : PyResult (Option (String × Record)) :=
  match splitSp (stripCh l) with
  | [] => .exn .indexError
  | [] :: _ => .exn .indexError
  | (c :: t) :: rest =>
    if c = '#' then .ok none
    else
      match recordOfTokens ((c :: t) :: rest) with
      | some sr => .ok (some sr)
      | none => .exn .valueError

/-- Python dictionary assignment `d[k] = v`: replace the value in place if
the key is present, otherwise append the new entry at the end. -/
def dictInsert (k : String) (v : Record) : List (String × Record) → List (String × Record)
  | [] => [(k, v)]
  | (k0, v0) :: rest =>
    if k0 = k then (k, v) :: rest else (k0, v0) :: dictInsert k v rest

/-- Python dictionary lookup `d[k]` as an option. -/
def dictLookup (k : String) : List (String × Record) → Option Record
  | [] => none
  | (k0, v0) :: rest => if k0 = k then some v0 else dictLookup k rest

/-- The parsing loop over the lines after the header (err_spl.py lines
233-259), accumulating `parsed_data`; the first uncaught exception of a
line aborts the whole call. -/
def parseDataLines : List (List Char) → List (String × Record) → PyResult (List (String × Record))
  | [], acc => .ok acc
  | l :: ls, acc =>
    match processLine l with
    | .exn e => .exn e
    | .ok none => parseDataLines ls acc
    | .ok (some (s, r)) => parseDataLines ls (dictInsert s r acc)

/-- The literal header expected on the first line (err_spl.py line 228). -/
def expected_header : String := "#Genotype concordance by sample (SNPs)"

/-- Shallow embedding of `parse_err_spl_report` (err_spl.py lines
226-261) applied to the raw file text `f["f"]`: split into lines (an
empty text raises `IndexError` at `lines[0]`), compare the first line
with the expected header (returning the empty mapping on mismatch), and
run the per-line loop on the remaining lines. -/
def parse_err_spl_report (text : String) : PyResult (List (String × Record)) :=
  match splitLinesCh text.data with
  | [] => .exn .indexError
  | first :: rest =>
    if first ≠ expected_header.data then .ok []
    else parseDataLines rest []

/-- Shallow embedding of the report counting in `MultiqcModule.__init__`
(glimpse.py lines 36-44): `n_reports_found` is initialised to `1` and the
return values of `parse_glimpse_err_spl` and `parse_glimpse_err_grp`
(each `0` when that submodule found no samples, otherwise the number of
samples) are added to it. -/
def moduleNReportsFound (splCount grpCount : ℕ) : ℕ :=
  1 + splCount + grpCount

/-- Whether `MultiqcModule.__init__` raises `ModuleNoSamplesFound`
(glimpse.py lines 43-44): exactly when the accumulated count is zero. -/
def moduleRaisesNoSamplesFound (splCount grpCount : ℕ) : Bool :=
  moduleNReportsFound splCount grpCount == 0

/-- The spec's example file: the expected header followed by the example
data line (spec §8, err_spl.py docstring). -/
def exampleInput : String :=
  "#Genotype concordance by sample (SNPs)\nGCsS 0 NA12878 851 3 0 0 602 0 0 3 1 0 0.496 100.000 0.000 100.000 0.000008 0.000008"

/-- The record the spec's example line must parse to (spec §8). -/
def exampleRecord : Record :=
  [("variants", PyValue.str "GCsS"),
   ("bins", PyValue.int 0),
   ("val_gt_RR", PyValue.int 851),
   ("val_gt_RA", PyValue.int 3),
   ("val_gt_AA", PyValue.int 0),
   ("filtered_gp", PyValue.int 0),
   ("RR_hom_matches", PyValue.int 602),
   ("RA_het_matches", PyValue.int 0),
   ("AA_hom_matches", PyValue.int 0),
   ("RR_hom_mismatches", PyValue.int 3),
   ("RA_het_mismatches", PyValue.int 1),
   ("AA_hom_mismatches", PyValue.int 0),
   ("RR_hom_mismatches_rate_percent", PyValue.float (0.496 : ℚ)),
   ("RA_het_mismatches_rate_percent", PyValue.float 100),
   ("AA_hom_mismatches_rate_percent", PyValue.float 0),
   ("non_reference_discordanc_rate_percent", PyValue.float 100),
   ("best_gt_rsquared", PyValue.float (0.000008 : ℚ)),
   ("imputed_ds_rsquared", PyValue.float (0.000008 : ℚ))]

/-- C1: the claim states that `parse_err_spl_report` never raises for
malformed input, every per-line failure dropping only that line.  The
code violates this: after the expected header, the malformed data line
"a b c" makes the 19-name unpacking at err_spl.py line 239 raise
`ValueError` (the token-count check at line 237 only logs and does not
skip), aborting the whole parse instead of dropping the line. -/
theorem parse_err_spl_report_raises_on_malformed_line :
    parse_err_spl_report "#Genotype concordance by sample (SNPs)\na b c" =
      .exn .valueError := by decide

/-- C2: the claim states that a malformed data line (wrong token count or
non-numeric token in a numeric slot) is skipped and parsing continues.
The code instead raises: a 19-token line with the non-numeric token "x"
in the integer `bins` slot makes `int(bins)` at err_spl.py line 242 raise
an uncaught `ValueError`, aborting the whole parse. -/
theorem parse_err_spl_report_raises_on_bad_numeric_token :
    parse_err_spl_report "#Genotype concordance by sample (SNPs)\nGCsS x NA12878 851 3 0 0 602 0 0 3 1 0 0.496 100.000 0.000 100.000 0.000008 0.000008" =
      .exn .valueError := by decide

/-- C3: the claim states that the empty input yields a diagnostic and an
empty mapping.  The code instead raises: `f["f"].splitlines()` of the
empty text is the empty list, and the header comparison `lines[0]` at
err_spl.py line 229 raises `IndexError` before anything is returned. -/
theorem parse_err_spl_report_raises_on_empty_input :
    parse_err_spl_report "" = .exn .indexError := by decide

/-- C5: parsing the header plus the spec's example data line yields the
mapping with the single key "NA12878" bound to the record with exactly
the 18 stated field values (`0.496` etc. denoting the exact decimal
values of the literals). -/
theorem parse_err_spl_report_example_line :
    parse_err_spl_report exampleInput = PyResult.ok [("NA12878", exampleRecord)] := by
  have h1 : (0.496 : ℚ) = mkRat 496 1000 := by norm_num [Rat.ofScientific_true_def]
  have h2 : (0.000008 : ℚ) = mkRat 8 1000000 := by norm_num [Rat.ofScientific_true_def]
  rw [exampleRecord, h1, h2]
  decide

/-- C7: the claim states that when every submodule parser finds zero
samples the module raises `ModuleNoSamplesFound`.  The code initialises
`n_reports_found = 1` (glimpse.py line 36), so with both submodule
counts zero the total is `1`, the `== 0` test at line 43 is false, and
the exception is never raised. -/
theorem moduleNoSamplesFound_not_raised_when_zero_samples :
    moduleRaisesNoSamplesFound 0 0 = false := by decide

theorem splitLinesCh_ne_nil {cs : List Char} (h : cs ≠ []) : splitLinesCh cs ≠ [] := by
  match cs with
  | [] => exact absurd rfl h
  | c :: rest =>
    rw [splitLinesCh.eq_def]
    split
    · simp_all
    · simp
    · simp
    · simp
    · split <;> simp

/-- C4: any non-empty input whose first line differs from the literal
expected header makes `parse_err_spl_report` return the empty mapping at
err_spl.py line 231, whatever the following lines contain. -/
theorem parse_err_spl_report_wrong_header_empty (s : String)
    (h1 : s.data ≠ [])
    (h2 : (splitLinesCh s.data).headD [] ≠ expected_header.data) :
    parse_err_spl_report s = .ok [] := by
  rcases hs : splitLinesCh s.data with _ | ⟨first, rest⟩
  · exact absurd hs (splitLinesCh_ne_nil h1)
  · rw [hs] at h2
    simp only [List.headD_cons] at h2
    unfold parse_err_spl_report
    rw [hs]
    simp [h2]

/-- Witness for C4 at the concrete input "hello\nGCsS 0 ..." whose first
line is not the expected header. -/
theorem parse_err_spl_report_wrong_header_empty_witness :
    parse_err_spl_report "hello\nGCsS 0 NA12878 851 3 0 0 602 0 0 3 1 0 0.496 100.000 0.000 100.000 0.000008 0.000008" = .ok [] :=
  parse_err_spl_report_wrong_header_empty _ (by decide) (by decide)

/-- Whether a record value was stored as Python `str`. -/
def isStrVal : PyValue → Bool
  | .str _ => true
  | _ => false

/-- Whether a record value was stored as Python `int`. -/
def isIntVal : PyValue → Bool
  | .int _ => true
  | _ => false

/-- Whether a record value was stored as Python `float`. -/
def isFloatVal : PyValue → Bool
  | .float _ => true
  | _ => false

/-- Number of fields of a record whose value satisfies the given kind. -/
def countVals (p : PyValue → Bool) (r : Record) : ℕ :=
  (r.filter (fun kv => p kv.2)).length

theorem recordOfTokens_kind_counts (fs : List (List Char)) (s : String) (r : Record)
    (h : recordOfTokens fs = some (s, r)) :
    countVals isStrVal r = 1 ∧ countVals isIntVal r = 11 ∧ countVals isFloatVal r = 6 := by
  unfold recordOfTokens at h
  split at h
  · split at h
    · simp only [Option.some.injEq, Prod.mk.injEq] at h
      obtain ⟨-, hr⟩ := h
      subst hr
      exact ⟨rfl, rfl, rfl⟩
    · exact absurd h (by simp)
  · exact absurd h (by simp)

/-- C6 (amended): every record produced from an accepted data line stores
the tokens other than the sample name as exactly 1 text field, 11
integer-coerced fields (`bins` plus the 10 count fields of err_spl.py
lines 242-252) and 6 floating-point-coerced fields. -/
theorem processLine_kind_counts (l : List Char) (s : String) (r : Record)
    (h : processLine l = .ok (some (s, r))) :
    countVals isStrVal r = 1 ∧ countVals isIntVal r = 11 ∧ countVals isFloatVal r = 6 := by
  unfold processLine at h
  split at h
  · exact absurd h (by simp)
  · exact absurd h (by simp)
  · split at h
    · exact absurd h (by simp)
    · split at h
      next sr heq =>
        simp only [PyResult.ok.injEq, Option.some.injEq] at h
        subst h
        exact recordOfTokens_kind_counts _ s r heq
      next heq => exact absurd h (by simp)

/-- The data line of the spec's example file, on its own. -/
def exampleDataLine : String :=
  "GCsS 0 NA12878 851 3 0 0 602 0 0 3 1 0 0.496 100.000 0.000 100.000 0.000008 0.000008"

/-- C6 counterexample: the spec's example line is accepted, and its record
stores 11 integer-coerced fields (`bins` plus 10 counts), not the 10 the
claim states: with 1 text field and 6 float fields, 1+10+6 = 17 cannot
cover the 18 stored tokens. -/
theorem record_int_count_eleven_not_ten :
    processLine exampleDataLine.data = .ok (some ("NA12878", exampleRecord)) ∧
    countVals isIntVal exampleRecord = 11 ∧
    ¬ countVals isIntVal exampleRecord = 10 := by
  refine ⟨?_, by decide, by decide⟩
  have h1 : (0.496 : ℚ) = mkRat 496 1000 := by norm_num [Rat.ofScientific_true_def]
  have h2 : (0.000008 : ℚ) = mkRat 8 1000000 := by norm_num [Rat.ofScientific_true_def]
  rw [exampleRecord, h1, h2]
  decide

/-- Witness for the amended C6 at the spec's example data line. -/
theorem processLine_kind_counts_witness :
    countVals isStrVal exampleRecord = 1 ∧ countVals isIntVal exampleRecord = 11 ∧
    countVals isFloatVal exampleRecord = 6 :=
  processLine_kind_counts exampleDataLine.data "NA12878" exampleRecord (by
    have h1 : (0.496 : ℚ) = mkRat 496 1000 := by norm_num [Rat.ofScientific_true_def]
    have h2 : (0.000008 : ℚ) = mkRat 8 1000000 := by norm_num [Rat.ofScientific_true_def]
    rw [exampleRecord, h1, h2]
    decide)

theorem parseDataLines_append_ok (xs ys : List (List Char))
    (acc m0 : List (String × Record)) (h : parseDataLines xs acc = .ok m0) :
    parseDataLines (xs ++ ys) acc = parseDataLines ys m0 := by
  induction xs generalizing acc with
  | nil =>
    simp only [parseDataLines] at h
    obtain rfl : acc = m0 := by injection h
    rfl
  | cons l ls ih =>
    simp only [parseDataLines, List.cons_append] at h ⊢
    cases hp : processLine l with
    | exn e => rw [hp] at h; exact absurd h (by simp)
    | ok o =>
      rw [hp] at h
      match o with
      | none => exact ih acc h
      | some (s, r) => exact ih (dictInsert s r acc) h

theorem parseDataLines_append_exn (xs ys : List (List Char))
    (acc : List (String × Record)) (e : PyErr) (h : parseDataLines xs acc = .exn e) :
    parseDataLines (xs ++ ys) acc = .exn e := by
  induction xs generalizing acc with
  | nil => exact absurd h (by simp [parseDataLines])
  | cons l ls ih =>
    simp only [parseDataLines, List.cons_append] at h ⊢
    cases hp : processLine l with
    | exn e0 => rw [hp] at h; exact h
    | ok o =>
      rw [hp] at h
      match o with
      | none => exact ih acc h
      | some (s, r) => exact ih (dictInsert s r acc) h

theorem dictLookup_insert_self (s : String) (r : Record)
    (m : List (String × Record)) : dictLookup s (dictInsert s r m) = some r := by
  induction m with
  | nil => simp [dictInsert, dictLookup]
  | cons kv rest ih =>
    obtain ⟨k0, v0⟩ := kv
    by_cases hk : k0 = s <;> simp [dictInsert, dictLookup, hk, ih]

theorem dictLookup_insert_ne (s s0 : String) (r : Record)
    (m : List (String × Record)) (h : s0 ≠ s) :
    dictLookup s (dictInsert s0 r m) = dictLookup s m := by
  induction m with
  | nil => simp [dictInsert, dictLookup, h]
  | cons kv rest ih =>
    obtain ⟨k0, v0⟩ := kv
    by_cases hk : k0 = s0
    · subst hk; simp [dictInsert, dictLookup, h]
    · by_cases hks : k0 = s <;> simp [dictInsert, dictLookup, hk, hks, Ne.symm h, ih]

theorem parseDataLines_lookup_of_no_key (ls : List (List Char))
    (acc m : List (String × Record)) (s : String)
    (hls : ∀ l ∈ ls, ∀ r0, processLine l ≠ .ok (some (s, r0)))
    (h : parseDataLines ls acc = .ok m) :
    dictLookup s m = dictLookup s acc := by
  induction ls generalizing acc with
  | nil =>
    simp only [parseDataLines] at h
    obtain rfl : acc = m := by injection h
    rfl
  | cons l ls ih =>
    simp only [parseDataLines] at h
    cases hp : processLine l with
    | exn e => rw [hp] at h; exact absurd h (by simp)
    | ok o =>
      rw [hp] at h
      match o with
      | none => exact ih acc (fun l0 hl0 => hls l0 (List.mem_cons_of_mem l hl0)) h
      | some (s0, r0) =>
        have hne : s0 ≠ s := by
          intro he
          subst he
          exact hls l (List.mem_cons_self l ls) r0 hp
        rw [ih (dictInsert s0 r0 acc) (fun l0 hl0 => hls l0 (List.mem_cons_of_mem l hl0)) h,
          dictLookup_insert_ne s s0 r0 acc hne]

/-- C8: in a file whose parse succeeds, a later accepted data line bearing
the same sample-name token as an earlier one fully replaces the earlier
record: the output mapping binds the name to the later line's record
(Python dict assignment at err_spl.py line 240 overwrites). -/
theorem parse_err_spl_report_duplicate_overwrites
    (text : String) (pre mid post : List (List Char)) (l1 l2 : List Char)
    (s : String) (r1 r2 : Record) (m : List (String × Record))
    (hsplit : splitLinesCh text.data =
      expected_header.data :: (pre ++ l1 :: mid ++ l2 :: post))
    (_h1 : processLine l1 = .ok (some (s, r1)))
    (h2 : processLine l2 = .ok (some (s, r2)))
    (hpost : ∀ l ∈ post, ∀ r0, processLine l ≠ .ok (some (s, r0)))
    (hok : parse_err_spl_report text = .ok m) :
    dictLookup s m = some r2 := by
  unfold parse_err_spl_report at hok
  rw [hsplit] at hok
  replace hok : parseDataLines (pre ++ l1 :: mid ++ l2 :: post) [] = .ok m := hok
  cases hpre : parseDataLines (pre ++ l1 :: mid) [] with
  | exn e =>
    rw [parseDataLines_append_exn (pre ++ l1 :: mid) (l2 :: post) [] e hpre] at hok
    exact absurd hok (by simp)
  | ok m1 =>
    rw [parseDataLines_append_ok (pre ++ l1 :: mid) (l2 :: post) [] m1 hpre] at hok
    simp only [parseDataLines, h2] at hok
    rw [parseDataLines_lookup_of_no_key post (dictInsert s r2 m1) m s hpost hok,
      dictLookup_insert_self]

/-- A file with two accepted data lines for the same sample "NA12878",
differing in their values. -/
def dupText : String :=
  "#Genotype concordance by sample (SNPs)\nGCsS 0 NA12878 1 0 0 0 0 0 0 0 0 0 0.0 0.0 0.0 0.0 0.0 0.0\nGCsS 1 NA12878 2 0 0 0 0 0 0 0 0 0 0.5 0.0 0.0 0.0 0.0 0.0"

/-- First data line of `dupText`. -/
def dupLineA : String := "GCsS 0 NA12878 1 0 0 0 0 0 0 0 0 0 0.0 0.0 0.0 0.0 0.0 0.0"

/-- Second data line of `dupText`, same sample name. -/
def dupLineB : String := "GCsS 1 NA12878 2 0 0 0 0 0 0 0 0 0 0.5 0.0 0.0 0.0 0.0 0.0"

/-- The record of `dupLineA`. -/
def dupRecordA : Record :=
  [("variants", PyValue.str "GCsS"), ("bins", PyValue.int 0),
   ("val_gt_RR", PyValue.int 1), ("val_gt_RA", PyValue.int 0),
   ("val_gt_AA", PyValue.int 0), ("filtered_gp", PyValue.int 0),
   ("RR_hom_matches", PyValue.int 0), ("RA_het_matches", PyValue.int 0),
   ("AA_hom_matches", PyValue.int 0), ("RR_hom_mismatches", PyValue.int 0),
   ("RA_het_mismatches", PyValue.int 0), ("AA_hom_mismatches", PyValue.int 0),
   ("RR_hom_mismatches_rate_percent", PyValue.float 0),
   ("RA_het_mismatches_rate_percent", PyValue.float 0),
   ("AA_hom_mismatches_rate_percent", PyValue.float 0),
   ("non_reference_discordanc_rate_percent", PyValue.float 0),
   ("best_gt_rsquared", PyValue.float 0), ("imputed_ds_rsquared", PyValue.float 0)]

/-- The record of `dupLineB`. -/
def dupRecordB : Record :=
  [("variants", PyValue.str "GCsS"), ("bins", PyValue.int 1),
   ("val_gt_RR", PyValue.int 2), ("val_gt_RA", PyValue.int 0),
   ("val_gt_AA", PyValue.int 0), ("filtered_gp", PyValue.int 0),
   ("RR_hom_matches", PyValue.int 0), ("RA_het_matches", PyValue.int 0),
   ("AA_hom_matches", PyValue.int 0), ("RR_hom_mismatches", PyValue.int 0),
   ("RA_het_mismatches", PyValue.int 0), ("AA_hom_mismatches", PyValue.int 0),
   ("RR_hom_mismatches_rate_percent", PyValue.float (mkRat 1 2)),
   ("RA_het_mismatches_rate_percent", PyValue.float 0),
   ("AA_hom_mismatches_rate_percent", PyValue.float 0),
   ("non_reference_discordanc_rate_percent", PyValue.float 0),
   ("best_gt_rsquared", PyValue.float 0), ("imputed_ds_rsquared", PyValue.float 0)]

/-- Witness for C8 at `dupText`: the mapping binds "NA12878" to the
second line's record. -/
theorem parse_err_spl_report_duplicate_overwrites_witness :
    dictLookup "NA12878" [("NA12878", dupRecordB)] = some dupRecordB :=
  parse_err_spl_report_duplicate_overwrites dupText [] [] []
    dupLineA.data dupLineB.data "NA12878" dupRecordA dupRecordB
    [("NA12878", dupRecordB)] (by decide) (by decide) (by decide)
    (by simp) (by decide)

theorem processLine_blank (l : List Char) (h : stripCh l = []) :
    processLine l = .exn .indexError := by
  unfold processLine
  rw [h]
  rfl

theorem parseDataLines_ok_of_all_ok (ls : List (List Char))
    (acc : List (String × Record))
    (h : ∀ l ∈ ls, ∃ o, processLine l = .ok o) :
    ∃ m, parseDataLines ls acc = .ok m := by
  induction ls generalizing acc with
  | nil => exact ⟨acc, rfl⟩
  | cons l ls ih =>
    obtain ⟨o, ho⟩ := h l (List.mem_cons_self l ls)
    have hrest : ∀ l0 ∈ ls, ∃ o0, processLine l0 = .ok o0 :=
      fun l0 hl0 => h l0 (List.mem_cons_of_mem l hl0)
    simp only [parseDataLines, ho]
    match o with
    | none => exact ih acc hrest
    | some (s, r) => exact ih (dictInsert s r acc) hrest

/-- C10 (amended): if the first line is the expected header, every line
before the first blank (empty or whitespace-only) line is processed
without an exception, and such a blank line is present, then
`parse_err_spl_report` raises `IndexError`: the blank line strips and
splits to the single empty token, and `fields[0][0]` at err_spl.py line
235 indexes into the empty string.  (If an earlier line already raises,
that exception — e.g. `ValueError` — wins instead; see the
counterexample.) -/
theorem parse_err_spl_report_blank_line_index_error
    (text : String) (pre rest : List (List Char)) (blank : List Char)
    (hsplit : splitLinesCh text.data = expected_header.data :: (pre ++ blank :: rest))
    (hpre : ∀ l ∈ pre, ∃ o, processLine l = .ok o)
    (hblank : stripCh blank = []) :
    parse_err_spl_report text = .exn .indexError := by
  have hmain : parseDataLines (pre ++ blank :: rest) [] = .exn .indexError := by
    obtain ⟨m0, hm0⟩ := parseDataLines_ok_of_all_ok pre [] hpre
    rw [parseDataLines_append_ok pre (blank :: rest) [] m0 hm0]
    simp only [parseDataLines, processLine_blank blank hblank]
  unfold parse_err_spl_report
  rw [hsplit]
  exact hmain

/-- C10 counterexample to the universally stated claim: an input whose
first line is the header and which contains a blank line can still fail
with `ValueError` rather than `IndexError`, when an earlier malformed
line aborts the parse first. -/
theorem blank_line_preempted_by_value_error :
    (splitLinesCh ("#Genotype concordance by sample (SNPs)\nx y\n\n" : String).data).headD []
        = expected_header.data ∧
    [] ∈ (splitLinesCh ("#Genotype concordance by sample (SNPs)\nx y\n\n" : String).data).tail ∧
    parse_err_spl_report "#Genotype concordance by sample (SNPs)\nx y\n\n" = .exn .valueError ∧
    parse_err_spl_report "#Genotype concordance by sample (SNPs)\nx y\n\n" ≠ .exn .indexError := by
  refine ⟨by decide, by decide, by decide, by decide⟩

/-- Witness for the amended C10 at the input consisting of the header and
one blank line. -/
theorem parse_err_spl_report_blank_line_index_error_witness :
    parse_err_spl_report "#Genotype concordance by sample (SNPs)\n\n" = .exn .indexError :=
  parse_err_spl_report_blank_line_index_error
    "#Genotype concordance by sample (SNPs)\n\n" [] [] []
    (by decide) (by simp) (by decide)

/-- The decimal digit character for a value below ten. -/
def digitChar (d : ℕ) : Char := Char.ofNat (48 + d)

/-- Digit-by-digit rendering with explicit fuel (the fuel only has to
exceed the number of digits, which `renderNat` arranges); structural in
the fuel so that it evaluates inside the kernel. -/
def renderNatAux : ℕ → ℕ → List Char
  | 0, _ => []
  | fuel + 1, n =>
    if n < 10 then [digitChar n]
    else renderNatAux fuel (n / 10) ++ [digitChar (n % 10)]

/-- Decimal rendering of a natural number, most significant digit first
(the digits Python `str` would print). -/
def renderNat (n : ℕ) : List Char := renderNatAux (n + 1) n

/-- Decimal rendering of an integer, as Python `str(int)` prints it. -/
def renderInt (n : ℤ) : List Char :=
  if n < 0 then '-' :: renderNat n.natAbs else renderNat n.natAbs

/-- Left-pad a digit string with zeros up to width `k`. -/
def padZeros (k : ℕ) (ds : List Char) : List Char :=
  List.replicate (k - ds.length) '0' ++ ds

/-- Decimal rendering of the exact value m / 10^k with `k` digits after
the decimal point (for `k = 0`, plain integer form). -/
def renderDec (m : ℤ) (k : ℕ) : List Char :=
  if k = 0 then renderInt m
  else
    (if m < 0 then ['-'] else []) ++ renderNat (m.natAbs / 10 ^ k) ++
      '.' :: padZeros k (renderNat (m.natAbs % 10 ^ k))

/-- Join tokens into one line with single-space separators. -/
def joinSp : List (List Char) → List Char
  | [] => []
  | [t] => t
  | t :: ts => t ++ ' ' :: joinSp ts

theorem digitChar_isDigit (d : ℕ) (h : d < 10) : (digitChar d).isDigit = true := by
  interval_cases d <;> decide

theorem digVal_digitChar (d : ℕ) (h : d < 10) : digVal (digitChar d) = d := by
  interval_cases d <;> decide

theorem natOfDigits_append (xs : List Char) (c : Char) :
    natOfDigits (xs ++ [c]) = 10 * natOfDigits xs + digVal c := by
  unfold natOfDigits
  rw [List.foldl_append]
  rfl

theorem renderNatAux_spec (fuel : ℕ) :
    ∀ n, n < 10 ^ fuel → 1 ≤ fuel →
      natOfDigits (renderNatAux fuel n) = n ∧
      (∀ c ∈ renderNatAux fuel n, c.isDigit = true) ∧ renderNatAux fuel n ≠ [] := by
  induction fuel with
  | zero => omega
  | succ fuel ih =>
    intro n hn _hf
    rw [renderNatAux]
    split
    · refine ⟨?_, ?_, by simp⟩
      · simp [natOfDigits, digVal_digitChar n (by omega)]
      · intro c hc
        simp only [List.mem_singleton] at hc
        subst hc
        exact digitChar_isDigit n (by omega)
    · rename_i hbig
      have hfuel : 1 ≤ fuel := by
        rcases Nat.lt_or_ge fuel 1 with h1 | h1
        · exfalso
          interval_cases fuel
          simp at hn
          omega
        · exact h1
      have hdlt : n / 10 < 10 ^ fuel := by
        rw [Nat.div_lt_iff_lt_mul (by omega)]
        calc n < 10 ^ (fuel + 1) := hn
        _ = 10 ^ fuel * 10 := by rw [pow_succ]
      obtain ⟨ih1, ih2, ih3⟩ := ih (n / 10) hdlt hfuel
      refine ⟨?_, ?_, by simp⟩
      · rw [natOfDigits_append, ih1, digVal_digitChar (n % 10) (Nat.mod_lt _ (by omega))]
        omega
      · intro c hc
        rw [List.mem_append] at hc
        rcases hc with hc | hc
        · exact ih2 c hc
        · simp only [List.mem_singleton] at hc
          subst hc
          exact digitChar_isDigit _ (Nat.mod_lt _ (by omega))

theorem renderNat_spec (n : ℕ) :
    natOfDigits (renderNat n) = n ∧ (∀ c ∈ renderNat n, c.isDigit = true) ∧
      renderNat n ≠ [] := by
  unfold renderNat
  exact renderNatAux_spec (n + 1) n (Nat.lt_trans (Nat.lt_pow_self (by omega) n)
    (Nat.pow_lt_pow_succ (by omega))) (by omega)

theorem renderNatAux_length_le (fuel : ℕ) :
    ∀ n k, 1 ≤ k → n < 10 ^ k → (renderNatAux fuel n).length ≤ k := by
  induction fuel with
  | zero =>
    intro n k hk _h
    simp [renderNatAux]
  | succ fuel ih =>
    intro n k hk hnk
    rw [renderNatAux]
    split
    · simpa using hk
    · rename_i hn
      have hk2 : 2 ≤ k := by
        rcases Nat.lt_or_ge k 2 with h2 | h2
        · exfalso
          interval_cases k
          simp only [pow_one] at hnk
          omega
        · exact h2
      have hd : n / 10 < 10 ^ (k - 1) := by
        have hpow : 10 ^ k = 10 ^ (k - 1) * 10 := by
          rw [← pow_succ]
          congr 1
          omega
        rw [Nat.div_lt_iff_lt_mul (by omega)]
        omega
      have := ih (n / 10) (k - 1) (by omega) hd
      simp only [List.length_append, List.length_singleton]
      omega

theorem renderNat_length_le (n : ℕ) :
    ∀ k, 1 ≤ k → n < 10 ^ k → (renderNat n).length ≤ k := by
  intro k hk hnk
  exact renderNatAux_length_le (n + 1) n k hk hnk

theorem ne_of_isDigit {c c0 : Char} (h : c.isDigit = true) (h0 : c0.isDigit = false) :
    c ≠ c0 := by
  intro he
  subst he
  rw [h] at h0
  exact Bool.noConfusion h0

theorem not_pyspace_of_isDigit {c : Char} (h : c.isDigit = true) : isPySpace c = false := by
  rcases hps : isPySpace c with _ | _
  · rfl
  · exfalso
    unfold isPySpace at hps
    simp only [Bool.or_eq_true, decide_eq_true_eq] at hps
    casesm* _ ∨ _
    all_goals (subst_vars; exact absurd h (by decide))

theorem parseNatCh_renderNat (n : ℕ) : parseNatCh (renderNat n) = some n := by
  obtain ⟨h1, h2, h3⟩ := renderNat_spec n
  unfold parseNatCh
  rw [if_neg h3, if_pos (List.all_eq_true.mpr h2), h1]

theorem renderNat_head_digit (n : ℕ) :
    ∃ c cs, renderNat n = c :: cs ∧ c.isDigit = true := by
  obtain ⟨-, h2, h3⟩ := renderNat_spec n
  rcases hr : renderNat n with _ | ⟨c, cs⟩
  · exact absurd hr h3
  · exact ⟨c, cs, rfl, h2 c (by rw [hr]; exact List.mem_cons_self c cs)⟩

theorem parseIntCh_digits (cs : List Char) (c0 : Char) (hc : cs = c0 :: cs.tail)
    (hd : c0.isDigit = true) : parseIntCh cs = (parseNatCh cs).map (fun n => (n : ℤ)) := by
  rw [parseIntCh.eq_def]
  split
  · injection hc with hc1 _
    exact absurd hc1.symm (ne_of_isDigit hd (by decide))
  · injection hc with hc1 _
    exact absurd hc1.symm (ne_of_isDigit hd (by decide))
  · rfl

theorem parseIntCh_renderInt (n : ℤ) : parseIntCh (renderInt n) = some n := by
  unfold renderInt
  split
  · rename_i hn
    show (parseNatCh (renderNat n.natAbs)).map (fun m => -(m : ℤ)) = some n
    rw [parseNatCh_renderNat]
    show some (-(n.natAbs : ℤ)) = some n
    congr 1
    omega
  · rename_i hn
    obtain ⟨c, cs, hr, hd⟩ := renderNat_head_digit n.natAbs
    rw [parseIntCh_digits (renderNat n.natAbs) c (by rw [hr]; rfl) hd,
      parseNatCh_renderNat]
    show some ((n.natAbs : ℤ)) = some n
    congr 1
    omega

theorem takeWhile_append_all {p : Char → Bool} (xs ys : List Char)
    (h : ∀ c ∈ xs, p c = true) :
    List.takeWhile p (xs ++ ys) = xs ++ List.takeWhile p ys := by
  induction xs with
  | nil => rfl
  | cons c xs ih =>
    rw [List.cons_append, List.takeWhile_cons, h c (List.mem_cons_self c xs),
      ih (fun c0 hc0 => h c0 (List.mem_cons_of_mem c hc0))]
    rfl

theorem dropWhile_append_all {p : Char → Bool} (xs ys : List Char)
    (h : ∀ c ∈ xs, p c = true) :
    List.dropWhile p (xs ++ ys) = List.dropWhile p ys := by
  induction xs with
  | nil => rfl
  | cons c xs ih =>
    rw [List.cons_append, List.dropWhile_cons, h c (List.mem_cons_self c xs)]
    exact ih (fun c0 hc0 => h c0 (List.mem_cons_of_mem c hc0))

theorem takeWhile_eq_self_of_all {p : Char → Bool} (xs : List Char)
    (h : ∀ c ∈ xs, p c = true) : List.takeWhile p xs = xs := by
  have := takeWhile_append_all xs [] h
  simpa using this

theorem dropWhile_eq_nil_of_all {p : Char → Bool} (xs : List Char)
    (h : ∀ c ∈ xs, p c = true) : List.dropWhile p xs = [] := by
  have := dropWhile_append_all xs [] h
  simpa using this

theorem natOfDigits_cons_zero (xs : List Char) :
    natOfDigits ('0' :: xs) = natOfDigits xs := rfl

theorem natOfDigits_replicate_zero (j : ℕ) (ds : List Char) :
    natOfDigits (List.replicate j '0' ++ ds) = natOfDigits ds := by
  induction j with
  | zero => rfl
  | succ j ih => rw [List.replicate_succ, List.cons_append, natOfDigits_cons_zero, ih]

theorem padZeros_length (k : ℕ) (ds : List Char) (h : ds.length ≤ k) :
    (padZeros k ds).length = k := by
  simp only [padZeros, List.length_append, List.length_replicate]
  omega

theorem padZeros_digits (k : ℕ) (ds : List Char) (h : ∀ c ∈ ds, c.isDigit = true) :
    ∀ c ∈ padZeros k ds, c.isDigit = true := by
  intro c hc
  rw [padZeros, List.mem_append] at hc
  rcases hc with hc | hc
  · rw [List.eq_of_mem_replicate hc]
    decide
  · exact h c hc

theorem natOfDigits_padZeros (k : ℕ) (ds : List Char) :
    natOfDigits (padZeros k ds) = natOfDigits ds :=
  natOfDigits_replicate_zero (k - ds.length) ds

theorem parseFracCh_digits (ds : List Char) (hne : ds ≠ [])
    (h : ∀ c ∈ ds, c.isDigit = true) :
    parseFracCh ds = some ((natOfDigits ds : ℤ), 1) := by
  unfold parseFracCh
  rw [takeWhile_eq_self_of_all ds h, dropWhile_eq_nil_of_all ds h]
  simp only [if_neg hne]

theorem parseFracCh_point (ip fp : List Char) (hip : ip ≠ [])
    (h1 : ∀ c ∈ ip, c.isDigit = true) (h2 : ∀ c ∈ fp, c.isDigit = true) :
    parseFracCh (ip ++ '.' :: fp) =
      some ((natOfDigits ip : ℤ) * 10 ^ fp.length + (natOfDigits fp : ℤ),
        10 ^ fp.length) := by
  unfold parseFracCh
  rw [takeWhile_append_all ip ('.' :: fp) h1, dropWhile_append_all ip ('.' :: fp) h1,
    List.takeWhile_cons, List.dropWhile_cons]
  have hdot : Char.isDigit '.' = false := by decide
  rw [hdot]
  simp only [List.append_nil, Bool.false_eq_true, if_false]
  rw [takeWhile_eq_self_of_all fp h2, dropWhile_eq_nil_of_all fp h2]
  have hcond : (decide (ip = []) && decide (fp = [])) = false := by
    simp [hip]
  rw [hcond]
  simp

theorem parseFloatCh_digits (cs : List Char) (c0 : Char) (hc : cs = c0 :: cs.tail)
    (hd : c0.isDigit = true) :
    parseFloatCh cs = (parseFracCh cs).map (fun md => mkRat md.1 md.2) := by
  rw [parseFloatCh.eq_def]
  split
  · injection hc with hc1 _
    exact absurd hc1.symm (ne_of_isDigit hd (by decide))
  · injection hc with hc1 _
    exact absurd hc1.symm (ne_of_isDigit hd (by decide))
  · rfl

theorem parseFloatCh_renderDec (m : ℤ) (k : ℕ) :
    parseFloatCh (renderDec m k) = some (mkRat m (10 ^ k)) := by
  have hds := renderNat_spec (m.natAbs / 10 ^ k)
  have hms := renderNat_spec (m.natAbs % 10 ^ k)
  unfold renderDec
  split
  · rename_i hk
    subst hk
    rw [pow_zero]
    unfold renderInt
    split
    · rename_i hm
      have hns := renderNat_spec m.natAbs
      show (parseFracCh (renderNat m.natAbs)).map (fun md => mkRat (-md.1) md.2) =
        some (mkRat m 1)
      rw [parseFracCh_digits _ hns.2.2 hns.2.1, hns.1]
      show some (mkRat (-(m.natAbs : ℤ)) 1) = some (mkRat m 1)
      have he : -((m.natAbs : ℕ) : ℤ) = m := by omega
      rw [he]
    · rename_i hm
      have hns := renderNat_spec m.natAbs
      obtain ⟨c, cs, hr, hd⟩ := renderNat_head_digit m.natAbs
      rw [parseFloatCh_digits (renderNat m.natAbs) c (by rw [hr]; rfl) hd,
        parseFracCh_digits _ hns.2.2 hns.2.1, hns.1]
      show some (mkRat ((m.natAbs : ℤ)) 1) = some (mkRat m 1)
      have he : ((m.natAbs : ℕ) : ℤ) = m := by omega
      rw [he]
  · rename_i hk
    have hpk : 0 < 10 ^ k := pow_pos (by omega) k
    have hPlen : (padZeros k (renderNat (m.natAbs % 10 ^ k))).length = k :=
      padZeros_length _ _ (renderNat_length_le _ k (by omega) (Nat.mod_lt _ hpk))
    have hPdig : ∀ c ∈ padZeros k (renderNat (m.natAbs % 10 ^ k)), c.isDigit = true :=
      padZeros_digits _ _ hms.2.1
    have hPval : natOfDigits (padZeros k (renderNat (m.natAbs % 10 ^ k))) =
        m.natAbs % 10 ^ k := by
      rw [natOfDigits_padZeros, hms.1]
    have hpoint := parseFracCh_point (renderNat (m.natAbs / 10 ^ k))
      (padZeros k (renderNat (m.natAbs % 10 ^ k))) hds.2.2 hds.2.1 hPdig
    rw [hds.1, hPval, hPlen] at hpoint
    have hmant : ((m.natAbs / 10 ^ k : ℕ) : ℤ) * (10 : ℤ) ^ k +
        ((m.natAbs % 10 ^ k : ℕ) : ℤ) = (m.natAbs : ℤ) := by
      have hN : m.natAbs / 10 ^ k * 10 ^ k + m.natAbs % 10 ^ k = m.natAbs := by
        rw [Nat.mul_comm]
        exact Nat.div_add_mod _ _
      exact_mod_cast hN
    rw [hmant] at hpoint
    split
    · rename_i hm
      rw [List.append_assoc, List.singleton_append]
      show (parseFracCh (renderNat (m.natAbs / 10 ^ k) ++ '.' ::
        padZeros k (renderNat (m.natAbs % 10 ^ k)))).map (fun md => mkRat (-md.1) md.2) =
        some (mkRat m (10 ^ k))
      rw [hpoint]
      show some (mkRat (-(m.natAbs : ℤ)) (10 ^ k)) = some (mkRat m (10 ^ k))
      have he : -((m.natAbs : ℕ) : ℤ) = m := by omega
      rw [he]
    · rename_i hm
      rw [List.nil_append]
      obtain ⟨c, cs, hr, hd⟩ := renderNat_head_digit (m.natAbs / 10 ^ k)
      rw [parseFloatCh_digits _ c (by rw [hr]; rfl) hd, hpoint]
      show some (mkRat ((m.natAbs : ℤ)) (10 ^ k)) = some (mkRat m (10 ^ k))
      have he : ((m.natAbs : ℕ) : ℤ) = m := by omega
      rw [he]

theorem splitSp_cons (c : Char) (rest : List Char) :
    splitSp (c :: rest) = if c = ' ' then [] :: splitSp rest
      else match splitSp rest with
        | [] => [[c]]
        | t :: ts => (c :: t) :: ts := rfl

theorem splitSp_single (t : List Char) (h : ' ' ∉ t) : splitSp t = [t] := by
  induction t with
  | nil => rfl
  | cons c t ih =>
    rw [List.mem_cons, not_or] at h
    rw [splitSp_cons, if_neg (fun he => h.1 he.symm), ih h.2]

theorem splitSp_append (t rest : List Char) (h : ' ' ∉ t) :
    splitSp (t ++ ' ' :: rest) = t :: splitSp rest := by
  induction t with
  | nil =>
    show splitSp (' ' :: rest) = [] :: splitSp rest
    rw [splitSp_cons, if_pos rfl]
  | cons c t ih =>
    rw [List.mem_cons, not_or] at h
    rw [List.cons_append, splitSp_cons, if_neg (fun he => h.1 he.symm), ih h.2]

theorem splitSp_joinSp (ts : List (List Char)) (hne : ts ≠ [])
    (h : ∀ t ∈ ts, ' ' ∉ t) : splitSp (joinSp ts) = ts := by
  induction ts with
  | nil => exact absurd rfl hne
  | cons t ts ih =>
    cases ts with
    | nil => exact splitSp_single t (h t (List.mem_cons_self t []))
    | cons t2 ts2 =>
      show splitSp (t ++ ' ' :: joinSp (t2 :: ts2)) = t :: t2 :: ts2
      rw [splitSp_append t _ (h t (List.mem_cons_self t (t2 :: ts2))),
        ih (by simp) (fun t0 ht0 => h t0 (List.mem_cons_of_mem t ht0))]

theorem dropWhile_eq_self_of_head (l : List Char)
    (h : ∀ c, l.head? = some c → isPySpace c = false) :
    List.dropWhile isPySpace l = l := by
  cases l with
  | nil => rfl
  | cons c t =>
    rw [List.dropWhile_cons, h c rfl]
    simp

theorem stripCh_eq_self (l : List Char)
    (h1 : ∀ c, l.head? = some c → isPySpace c = false)
    (h2 : ∀ c, l.getLast? = some c → isPySpace c = false) :
    stripCh l = l := by
  unfold stripCh
  rw [dropWhile_eq_self_of_head l h1,
    dropWhile_eq_self_of_head l.reverse
      (fun c hc => h2 c (by rwa [List.head?_reverse] at hc)),
    List.reverse_reverse]

theorem mem_joinSp (ts : List (List Char)) (c : Char) (h : c ∈ joinSp ts) :
    c = ' ' ∨ ∃ t ∈ ts, c ∈ t := by
  induction ts with
  | nil => simp [joinSp] at h
  | cons t ts ih =>
    cases ts with
    | nil => exact Or.inr ⟨t, List.mem_cons_self t [], h⟩
    | cons t2 ts2 =>
      rw [show joinSp (t :: t2 :: ts2) = t ++ ' ' :: joinSp (t2 :: ts2) from rfl,
        List.mem_append] at h
      rcases h with h | h
      · exact Or.inr ⟨t, List.mem_cons_self t (t2 :: ts2), h⟩
      · rw [List.mem_cons] at h
        rcases h with h | h
        · exact Or.inl h
        · rcases ih h with h | ⟨t0, ht0, hc⟩
          · exact Or.inl h
          · exact Or.inr ⟨t0, List.mem_cons_of_mem t ht0, hc⟩

theorem renderInt_chars (n : ℤ) : ∀ c ∈ renderInt n, c.isDigit = true ∨ c = '-' := by
  unfold renderInt
  split
  · intro c hc
    rw [List.mem_cons] at hc
    rcases hc with hc | hc
    · exact Or.inr hc
    · exact Or.inl ((renderNat_spec _).2.1 c hc)
  · intro c hc
    exact Or.inl ((renderNat_spec _).2.1 c hc)

theorem renderDec_chars (m : ℤ) (k : ℕ) :
    ∀ c ∈ renderDec m k, c.isDigit = true ∨ c = '-' ∨ c = '.' := by
  unfold renderDec
  split
  · intro c hc
    rcases renderInt_chars m c hc with hc1 | hc1
    · exact Or.inl hc1
    · exact Or.inr (Or.inl hc1)
  · intro c hc
    have hsgn : ∀ x ∈ (if m < 0 then ['-'] else ([] : List Char)), x = '-' := by
      split <;> simp
    simp only [List.append_assoc, List.mem_append, List.mem_cons] at hc
    rcases hc with hc | hc | hc | hc
    · exact Or.inr (Or.inl (hsgn c hc))
    · exact Or.inl ((renderNat_spec _).2.1 c hc)
    · exact Or.inr (Or.inr hc)
    · exact Or.inl (padZeros_digits _ _ (renderNat_spec _).2.1 c hc)

/-- The 19 positional tokens serialising a Record: group label, bin id,
sample name, the ten integer count fields, then the six float fields
written as exact decimals mi / 10^ki. -/
def serTokens (v name : List Char) (b i1 i2 i3 i4 i5 i6 i7 i8 i9 i10 : ℤ)
    (m1 m2 m3 m4 m5 m6 : ℤ) (k1 k2 k3 k4 k5 k6 : ℕ) : List (List Char) :=
  [v, renderInt b, name, renderInt i1, renderInt i2, renderInt i3, renderInt i4,
   renderInt i5, renderInt i6, renderInt i7, renderInt i8, renderInt i9,
   renderInt i10, renderDec m1 k1, renderDec m2 k2, renderDec m3 k3,
   renderDec m4 k4, renderDec m5 k5, renderDec m6 k6]

/-- The Record with the given 18 field values, in the field order of
err_spl.py lines 240-259. -/
def recordOf (v : String) (b i1 i2 i3 i4 i5 i6 i7 i8 i9 i10 : ℤ)
    (q1 q2 q3 q4 q5 q6 : ℚ) : Record :=
  [("variants", PyValue.str v), ("bins", PyValue.int b),
   ("val_gt_RR", PyValue.int i1), ("val_gt_RA", PyValue.int i2),
   ("val_gt_AA", PyValue.int i3), ("filtered_gp", PyValue.int i4),
   ("RR_hom_matches", PyValue.int i5), ("RA_het_matches", PyValue.int i6),
   ("AA_hom_matches", PyValue.int i7), ("RR_hom_mismatches", PyValue.int i8),
   ("RA_het_mismatches", PyValue.int i9), ("AA_hom_mismatches", PyValue.int i10),
   ("RR_hom_mismatches_rate_percent", PyValue.float q1),
   ("RA_het_mismatches_rate_percent", PyValue.float q2),
   ("AA_hom_mismatches_rate_percent", PyValue.float q3),
   ("non_reference_discordanc_rate_percent", PyValue.float q4),
   ("best_gt_rsquared", PyValue.float q5),
   ("imputed_ds_rsquared", PyValue.float q6)]

theorem recordOfTokens_serTokens (v name : List Char)
    (b i1 i2 i3 i4 i5 i6 i7 i8 i9 i10 m1 m2 m3 m4 m5 m6 : ℤ)
    (k1 k2 k3 k4 k5 k6 : ℕ) :
    recordOfTokens (serTokens v name b i1 i2 i3 i4 i5 i6 i7 i8 i9 i10
        m1 m2 m3 m4 m5 m6 k1 k2 k3 k4 k5 k6) =
      some (String.mk name, recordOf (String.mk v) b i1 i2 i3 i4 i5 i6 i7 i8 i9 i10
        (mkRat m1 (10 ^ k1)) (mkRat m2 (10 ^ k2)) (mkRat m3 (10 ^ k3))
        (mkRat m4 (10 ^ k4)) (mkRat m5 (10 ^ k5)) (mkRat m6 (10 ^ k6))) := by
  simp only [serTokens, recordOfTokens, parseIntCh_renderInt, parseFloatCh_renderDec,
    recordOf]

theorem getLast?_digits (l : List Char) (hne : l ≠ [])
    (h : ∀ c ∈ l, c.isDigit = true) : ∀ c, l.getLast? = some c → c.isDigit = true := by
  intro c hc
  rw [List.getLast?_eq_getLast_of_ne_nil hne] at hc
  injection hc with hc
  exact hc ▸ h _ (List.getLast_mem hne)

theorem renderDec_ne_nil (m : ℤ) (k : ℕ) : renderDec m k ≠ [] := by
  unfold renderDec
  split
  · unfold renderInt
    split
    · simp
    · exact (renderNat_spec _).2.2
  · simp

theorem renderDec_getLast_digit (m : ℤ) (k : ℕ) :
    ∀ c, (renderDec m k).getLast? = some c → c.isDigit = true := by
  unfold renderDec
  split
  · unfold renderInt
    split
    · intro c hc
      obtain ⟨c0, cs0, hr, -⟩ := renderNat_head_digit m.natAbs
      rw [hr, List.getLast?_cons_cons, ← hr] at hc
      exact getLast?_digits _ (renderNat_spec _).2.2 (renderNat_spec _).2.1 c hc
    · exact getLast?_digits _ (renderNat_spec _).2.2 (renderNat_spec _).2.1
  · rename_i hk
    intro c hc
    have hplen : (padZeros k (renderNat (m.natAbs % 10 ^ k))).length = k :=
      padZeros_length _ _ (renderNat_length_le _ k (by omega)
        (Nat.mod_lt _ (pow_pos (by omega) k)))
    have hpne : padZeros k (renderNat (m.natAbs % 10 ^ k)) ≠ [] := by
      intro he
      rw [he] at hplen
      simp at hplen
      omega
    rw [List.getLast?_append_cons] at hc
    obtain ⟨p0, P0, hP⟩ : ∃ p0 P0, padZeros k (renderNat (m.natAbs % 10 ^ k)) = p0 :: P0 := by
      cases hJ : padZeros k (renderNat (m.natAbs % 10 ^ k)) with
      | nil => exact absurd hJ hpne
      | cons a b => exact ⟨a, b, rfl⟩
    rw [hP, List.getLast?_cons_cons, ← hP] at hc
    exact getLast?_digits _ hpne (padZeros_digits _ _ (renderNat_spec _).2.1) c hc

theorem getLast?_joinSp (ts : List (List Char)) (last : List Char)
    (hl : ts.getLast? = some last) (hlast : last ≠ []) :
    (joinSp ts).getLast? = last.getLast? := by
  induction ts with
  | nil => simp at hl
  | cons t ts ih =>
    cases ts with
    | nil =>
      have : t = last := by simpa using hl
      subst this
      rfl
    | cons t2 ts2 =>
      rw [List.getLast?_cons_cons] at hl
      have hj := ih hl
      show (t ++ ' ' :: joinSp (t2 :: ts2)).getLast? = last.getLast?
      rw [List.getLast?_append_cons]
      have hne : joinSp (t2 :: ts2) ≠ [] := by
        intro he
        rw [he] at hj
        rw [List.getLast?_eq_getLast_of_ne_nil hlast] at hj
        exact Option.noConfusion hj
      obtain ⟨c2, X, hX⟩ : ∃ c2 X, joinSp (t2 :: ts2) = c2 :: X := by
        cases hJ : joinSp (t2 :: ts2) with
        | nil => exact absurd hJ hne
        | cons a b => exact ⟨a, b, rfl⟩
      rw [hX, List.getLast?_cons_cons, ← hX, hj]

theorem processLine_of_tokens (l : List Char) (c0 : Char) (t : List Char)
    (rest : List (List Char))
    (h : splitSp (stripCh l) = (c0 :: t) :: rest) (hc0 : c0 ≠ '#') :
    processLine l = match recordOfTokens ((c0 :: t) :: rest) with
      | some sr => .ok (some sr)
      | none => .exn .valueError := by
  unfold processLine
  rw [h]
  simp only [hc0, if_false]

theorem processLine_serTokens (v name : List Char)
    (b i1 i2 i3 i4 i5 i6 i7 i8 i9 i10 m1 m2 m3 m4 m5 m6 : ℤ)
    (k1 k2 k3 k4 k5 k6 : ℕ)
    (hv0 : v ≠ [])
    (hv1 : ∀ c ∈ v, isPySpace c = false)
    (hv2 : ∀ c, v.head? = some c → c ≠ '#')
    (hn : ∀ c ∈ name, isPySpace c = false) :
    processLine (joinSp (serTokens v name b i1 i2 i3 i4 i5 i6 i7 i8 i9 i10
        m1 m2 m3 m4 m5 m6 k1 k2 k3 k4 k5 k6)) =
      .ok (some (String.mk name, recordOf (String.mk v) b i1 i2 i3 i4 i5 i6 i7 i8 i9 i10
        (mkRat m1 (10 ^ k1)) (mkRat m2 (10 ^ k2)) (mkRat m3 (10 ^ k3))
        (mkRat m4 (10 ^ k4)) (mkRat m5 (10 ^ k5)) (mkRat m6 (10 ^ k6)))) := by
  have htok : ∀ t ∈ serTokens v name b i1 i2 i3 i4 i5 i6 i7 i8 i9 i10
      m1 m2 m3 m4 m5 m6 k1 k2 k3 k4 k5 k6, ' ' ∉ t := by
    intro t ht
    simp only [serTokens, List.mem_cons, List.not_mem_nil, or_false] at ht
    have hint : ∀ (n : ℤ), ' ' ∉ renderInt n := by
      intro n hsp
      rcases renderInt_chars n ' ' hsp with hx | hx
      · exact absurd hx (by decide)
      · exact absurd hx (by decide)
    have hdec : ∀ (mm : ℤ) (kk : ℕ), ' ' ∉ renderDec mm kk := by
      intro mm kk hsp
      rcases renderDec_chars mm kk ' ' hsp with hx | hx | hx
      · exact absurd hx (by decide)
      · exact absurd hx (by decide)
      · exact absurd hx (by decide)
    rcases ht with rfl | rfl | rfl | rfl | rfl | rfl | rfl | rfl | rfl | rfl | rfl | rfl |
      rfl | rfl | rfl | rfl | rfl | rfl | rfl
    all_goals first
      | exact hint _
      | exact hdec _ _
      | (intro hsp; exact absurd (hv1 ' ' hsp) (by decide))
      | (intro hsp; exact absurd (hn ' ' hsp) (by decide))
  obtain ⟨c0, v2, hv⟩ : ∃ c0 v2, v = c0 :: v2 := by
    cases v with
    | nil => exact absurd rfl hv0
    | cons a b0 => exact ⟨a, b0, rfl⟩
  subst hv
  have hL : stripCh (joinSp (serTokens (c0 :: v2) name b i1 i2 i3 i4 i5 i6 i7 i8 i9 i10
      m1 m2 m3 m4 m5 m6 k1 k2 k3 k4 k5 k6)) =
      joinSp (serTokens (c0 :: v2) name b i1 i2 i3 i4 i5 i6 i7 i8 i9 i10
        m1 m2 m3 m4 m5 m6 k1 k2 k3 k4 k5 k6) := by
    apply stripCh_eq_self
    · intro c hc
      have hhead : (joinSp (serTokens (c0 :: v2) name b i1 i2 i3 i4 i5 i6 i7 i8 i9 i10
          m1 m2 m3 m4 m5 m6 k1 k2 k3 k4 k5 k6)).head? = some c0 := rfl
      rw [hhead] at hc
      injection hc with hc
      exact hc ▸ hv1 c0 (List.mem_cons_self c0 v2)
    · intro c hc
      have hlast : (serTokens (c0 :: v2) name b i1 i2 i3 i4 i5 i6 i7 i8 i9 i10
          m1 m2 m3 m4 m5 m6 k1 k2 k3 k4 k5 k6).getLast? = some (renderDec m6 k6) := rfl
      rw [getLast?_joinSp _ _ hlast (renderDec_ne_nil m6 k6)] at hc
      exact not_pyspace_of_isDigit (renderDec_getLast_digit m6 k6 c hc)
  have hsp : splitSp (joinSp (serTokens (c0 :: v2) name b i1 i2 i3 i4 i5 i6 i7 i8 i9 i10
      m1 m2 m3 m4 m5 m6 k1 k2 k3 k4 k5 k6)) =
      serTokens (c0 :: v2) name b i1 i2 i3 i4 i5 i6 i7 i8 i9 i10
        m1 m2 m3 m4 m5 m6 k1 k2 k3 k4 k5 k6 :=
    splitSp_joinSp _ (by simp [serTokens]) htok
  rw [processLine_of_tokens _ c0 v2 _ (by rw [hL, hsp]; rfl) (hv2 c0 rfl),
    show ((c0 :: v2) :: renderInt b :: name :: renderInt i1 :: renderInt i2 ::
      renderInt i3 :: renderInt i4 :: renderInt i5 :: renderInt i6 :: renderInt i7 ::
      renderInt i8 :: renderInt i9 :: renderInt i10 :: renderDec m1 k1 ::
      renderDec m2 k2 :: renderDec m3 k3 :: renderDec m4 k4 :: renderDec m5 k5 ::
      [renderDec m6 k6]) = serTokens (c0 :: v2) name b i1 i2 i3 i4 i5 i6 i7 i8 i9 i10
        m1 m2 m3 m4 m5 m6 k1 k2 k3 k4 k5 k6 from rfl,
    recordOfTokens_serTokens]

theorem splitLinesCh_cons_ne (c : Char) (rest : List Char) (h1 : c ≠ '\n')
    (h2 : c ≠ '\x0d') :
    splitLinesCh (c :: rest) = match splitLinesCh rest with
      | [] => [[c]]
      | t :: ts => (c :: t) :: ts := by
  rw [splitLinesCh.eq_def]
  split
  all_goals first | rfl | simp_all

theorem splitLinesCh_nobreak (l : List Char) (hne : l ≠ [])
    (h : ∀ c ∈ l, c ≠ '\n' ∧ c ≠ '\x0d') : splitLinesCh l = [l] := by
  induction l with
  | nil => exact absurd rfl hne
  | cons c rest ih =>
    have hc := h c (List.mem_cons_self c rest)
    rw [splitLinesCh_cons_ne c rest hc.1 hc.2]
    cases rest with
    | nil => rfl
    | cons c2 r2 =>
      rw [ih (by simp) (fun c1 h1 => h c1 (List.mem_cons_of_mem c h1))]

theorem splitLinesCh_firstline (xs rest : List Char)
    (h : ∀ c ∈ xs, c ≠ '\n' ∧ c ≠ '\x0d') :
    splitLinesCh (xs ++ '\n' :: rest) = xs :: splitLinesCh rest := by
  induction xs with
  | nil => rfl
  | cons c xs ih =>
    have hc := h c (List.mem_cons_self c xs)
    rw [List.cons_append, splitLinesCh_cons_ne c _ hc.1 hc.2,
      ih (fun c1 h1 => h c1 (List.mem_cons_of_mem c h1))]

/-- C9 (amended): serialising a Record's 19 positional values (group
label, bin id, sample name, ten integer counts, six float fields written
as exact decimals mi / 10^ki) as a single-space-separated line after the
literal header and re-parsing yields an equal Record under the
sample-name key, provided the group label is nonempty, does not start
with the comment marker and contains no whitespace, and the sample name
contains no whitespace. -/
theorem parse_err_spl_report_roundtrip
    (v name : String) (b i1 i2 i3 i4 i5 i6 i7 i8 i9 i10 m1 m2 m3 m4 m5 m6 : ℤ)
    (k1 k2 k3 k4 k5 k6 : ℕ)
    (hv0 : v.data ≠ [])
    (hv1 : ∀ c ∈ v.data, isPySpace c = false)
    (hv2 : ∀ c, v.data.head? = some c → c ≠ '#')
    (hn : ∀ c ∈ name.data, isPySpace c = false) :
    parse_err_spl_report (String.mk (expected_header.data ++ '\n' ::
        joinSp (serTokens v.data name.data b i1 i2 i3 i4 i5 i6 i7 i8 i9 i10
          m1 m2 m3 m4 m5 m6 k1 k2 k3 k4 k5 k6))) =
      .ok [(name, recordOf v b i1 i2 i3 i4 i5 i6 i7 i8 i9 i10
        (mkRat m1 (10 ^ k1)) (mkRat m2 (10 ^ k2)) (mkRat m3 (10 ^ k3))
        (mkRat m4 (10 ^ k4)) (mkRat m5 (10 ^ k5)) (mkRat m6 (10 ^ k6)))] := by
  have hpl := processLine_serTokens v.data name.data b i1 i2 i3 i4 i5 i6 i7 i8 i9 i10
    m1 m2 m3 m4 m5 m6 k1 k2 k3 k4 k5 k6 hv0 hv1 hv2 hn
  have hLne : joinSp (serTokens v.data name.data b i1 i2 i3 i4 i5 i6 i7 i8 i9 i10
      m1 m2 m3 m4 m5 m6 k1 k2 k3 k4 k5 k6) ≠ [] := by
    intro he
    rw [he] at hpl
    have h0 : processLine ([] : List Char) = .exn .indexError := rfl
    rw [h0] at hpl
    exact PyResult.noConfusion hpl
  have hofdigit : ∀ c : Char, c.isDigit = true → c ≠ '\n' ∧ c ≠ '\x0d' :=
    fun c h => ⟨ne_of_isDigit h (by decide), ne_of_isDigit h (by decide)⟩
  have hpy : ∀ c : Char, isPySpace c = false → c ≠ '\n' ∧ c ≠ '\x0d' := by
    intro c h
    constructor <;> (intro he; subst he; exact absurd h (by decide))
  have hint2 : ∀ (n : ℤ) (c : Char), c ∈ renderInt n → c ≠ '\n' ∧ c ≠ '\x0d' := by
    intro n c hcn
    rcases renderInt_chars n c hcn with h | h
    · exact hofdigit c h
    · subst h
      exact ⟨by decide, by decide⟩
  have hdec2 : ∀ (mm : ℤ) (kk : ℕ) (c : Char), c ∈ renderDec mm kk →
      c ≠ '\n' ∧ c ≠ '\x0d' := by
    intro mm kk c hcn
    rcases renderDec_chars mm kk c hcn with h | h | h
    · exact hofdigit c h
    · subst h
      exact ⟨by decide, by decide⟩
    · subst h
      exact ⟨by decide, by decide⟩
  have hnobr : ∀ c ∈ joinSp (serTokens v.data name.data b i1 i2 i3 i4 i5 i6 i7 i8 i9 i10
      m1 m2 m3 m4 m5 m6 k1 k2 k3 k4 k5 k6), c ≠ '\n' ∧ c ≠ '\x0d' := by
    intro c hc
    rcases mem_joinSp _ c hc with rfl | ⟨t, ht, hct⟩
    · exact ⟨by decide, by decide⟩
    · simp only [serTokens, List.mem_cons, List.not_mem_nil, or_false] at ht
      rcases ht with rfl | rfl | rfl | rfl | rfl | rfl | rfl | rfl | rfl | rfl | rfl | rfl |
        rfl | rfl | rfl | rfl | rfl | rfl | rfl
      all_goals first
        | exact hpy c (hv1 c hct)
        | exact hpy c (hn c hct)
        | exact hint2 _ c hct
        | exact hdec2 _ _ c hct
  have hsl : splitLinesCh (expected_header.data ++ '\n' ::
      joinSp (serTokens v.data name.data b i1 i2 i3 i4 i5 i6 i7 i8 i9 i10
        m1 m2 m3 m4 m5 m6 k1 k2 k3 k4 k5 k6)) =
      expected_header.data :: [joinSp (serTokens v.data name.data b i1 i2 i3 i4 i5 i6
        i7 i8 i9 i10 m1 m2 m3 m4 m5 m6 k1 k2 k3 k4 k5 k6)] := by
    rw [splitLinesCh_firstline _ _ (by decide), splitLinesCh_nobreak _ hLne hnobr]
  unfold parse_err_spl_report
  rw [show (String.mk (expected_header.data ++ '\n' ::
      joinSp (serTokens v.data name.data b i1 i2 i3 i4 i5 i6 i7 i8 i9 i10
        m1 m2 m3 m4 m5 m6 k1 k2 k3 k4 k5 k6))).data =
      expected_header.data ++ '\n' ::
      joinSp (serTokens v.data name.data b i1 i2 i3 i4 i5 i6 i7 i8 i9 i10
        m1 m2 m3 m4 m5 m6 k1 k2 k3 k4 k5 k6) from rfl, hsl]
  show parseDataLines [joinSp (serTokens v.data name.data b i1 i2 i3 i4 i5 i6 i7 i8 i9
    i10 m1 m2 m3 m4 m5 m6 k1 k2 k3 k4 k5 k6)] [] = _
  simp only [parseDataLines, hpl]
  rfl

/-- C9 counterexample to the unrestricted claim: for the Record whose
group label is the text "#x" (with all numeric fields zero and sample
name "NA12878"), the serialised line starts with the comment marker, so
re-parsing skips it as a comment and the result is the empty mapping —
no Record is recovered under the sample-name key. -/
theorem roundtrip_fails_for_comment_variants :
    parse_err_spl_report (String.mk (expected_header.data ++ '\n' ::
        joinSp (serTokens "#x".data "NA12878".data 0 0 0 0 0 0 0 0 0 0 0
          0 0 0 0 0 0 0 0 0 0 0 0))) = .ok [] ∧
    PyResult.ok ([] : List (String × Record)) ≠
      .ok [("NA12878", recordOf "#x" 0 0 0 0 0 0 0 0 0 0 0
        (mkRat 0 (10 ^ 0)) (mkRat 0 (10 ^ 0)) (mkRat 0 (10 ^ 0)) (mkRat 0 (10 ^ 0))
        (mkRat 0 (10 ^ 0)) (mkRat 0 (10 ^ 0)))] := by
  refine ⟨by decide, by decide⟩

/-- Witness for the amended C9: round trip of the Record with group label
"GCsS", sample "NA12878", zero counts and first rate 0.496. -/
theorem parse_err_spl_report_roundtrip_witness :
    parse_err_spl_report (String.mk (expected_header.data ++ '\n' ::
        joinSp (serTokens "GCsS".data "NA12878".data 0 0 0 0 0 0 0 0 0 0 0
          496 0 0 0 0 0 3 0 0 0 0 0))) =
      .ok [("NA12878", recordOf "GCsS" 0 0 0 0 0 0 0 0 0 0 0
        (mkRat 496 (10 ^ 3)) (mkRat 0 (10 ^ 0)) (mkRat 0 (10 ^ 0)) (mkRat 0 (10 ^ 0))
        (mkRat 0 (10 ^ 0)) (mkRat 0 (10 ^ 0)))] :=
  parse_err_spl_report_roundtrip "GCsS" "NA12878" 0 0 0 0 0 0 0 0 0 0 0
    496 0 0 0 0 0 3 0 0 0 0 0 (by decide) (by decide) (by decide) (by decide)
